import Mathlib

/-!
Shallow embedding of the PROJECT-S front-end scripts (js/script.js and
js/parallax.js): the mission CRUD manager with its validation and its
localStorage JSON persistence, and the parallax animation arithmetic.
JavaScript numbers are modelled as Nat, Int and Rat; strings as Lean
strings; the DOM error elements as explicitly returned error strings;
localStorage as an Option String carried in a ManagerState; thrown
exceptions as the error side of Except.
-/

namespace ProjectS

/-- Whitespace characters recognised by the JavaScript string trim and
number coercion as used here (space, tab, newline, carriage return). -/
def isJsSpace (c : Char) : Bool :=
  c = ' ' || c = '\t' || c = '\n' || c = '\r'

/-- Model of String.prototype.trim. -/
def jsTrim (s : String) : String :=
  String.mk (((s.data.dropWhile isJsSpace).reverse.dropWhile isJsSpace).reverse)

/-- Numeric value of a big-endian list of decimal digit characters. -/
def digitsToNat (ds : List Char) : Nat :=
  ds.foldl (fun a c => a * 10 + (c.toNat - 48)) 0

/-- Decimal digit recognition (the character code range 48 to 57). -/
def isDigitChar (c : Char) : Bool :=
  48 ≤ c.toNat && c.toNat ≤ 57

/-- Strip an optional leading sign, returning whether it was a minus. -/
def afterSign : List Char → Bool × List Char
  | [] => (false, [])
  | c :: cs =>
    if c = '-' then (true, cs)
    else if c = '+' then (false, cs)
    else (false, c :: cs)

/-- Model of the JavaScript parseInt applied to a string (default radix):
skip leading whitespace, read an optional sign and then the longest run of
decimal digits; NaN (here: none) when no digit is found. -/
def parseIntJS (s : String) : Option Int :=
  let cs := s.data.dropWhile isJsSpace
  let sg := afterSign cs
  let ds := sg.2.takeWhile isDigitChar
  if ds = [] then none
  else if sg.1 then some (-(digitsToNat ds : Int)) else some (digitsToNat ds : Int)

/-- Model of the JavaScript ToNumber coercion on strings, restricted to the
plain decimal grammar (optional sign, integer digits, optional dot and
fraction digits, surrounding whitespace); none models NaN; the empty or
all-whitespace string coerces to 0.  Hexadecimal and exponent notations
are outside the modelled grammar and map to NaN.  The exact value is kept
as a scaled decimal: a pair of an integer numerator and a power-of-ten
exponent, so that every arithmetic decision below stays kernel-reducible;
decVal gives its rational value. -/
def toNumberJS (s : String) : Option (Int × Nat) :=
  let cs := ((s.data.dropWhile isJsSpace).reverse.dropWhile isJsSpace).reverse
  if cs = [] then some (0, 0)
  else
    let sg := afterSign cs
    let intDs := sg.2.takeWhile isDigitChar
    let r := sg.2.dropWhile isDigitChar
    let q :=
      if r.head? = some '.' then (r.tail.takeWhile isDigitChar, r.tail.dropWhile isDigitChar)
      else (([] : List Char), r)
    if q.2 = [] ∧ ¬(intDs = [] ∧ q.1 = []) then
      let n : Int := digitsToNat intDs * 10 ^ q.1.length + digitsToNat q.1
      some (if sg.1 then -n else n, q.1.length)
    else none

/-- Rational value of a scaled decimal produced by toNumberJS. -/
def decVal (p : Int × Nat) : ℚ :=
  (p.1 : ℚ) / 10 ^ p.2

/-- Constant MIN_YEAR of script.js. -/
def MIN_YEAR : ℚ := 1957

/-- Constant MAX_YEAR of script.js. -/
def MAX_YEAR : ℚ := 2100

/-- Model of MissionManager.validateField: a value fails when it is falsy
(the empty string) or trims to the empty string; the second component is
the text written to the error element (empty when the field is valid). -/
def validateField (value : String) (errorMessage : String) : Bool × String :=
  if value = "" ∨ jsTrim value = "" then (false, errorMessage) else (true, "")

/-- Model of MissionManager.validateYear on the form string: a falsy or
non-numeric value gives the required-field message, an out-of-range
numeric value gives the range message. -/
def validateYear (year : String) : Bool × String :=
  if year = "" then (false, "El año es requerido")
  else
    match toNumberJS year with
    | none => (false, "El año es requerido")
    | some p =>
      if p.1 < 1957 * (10 : Int) ^ p.2 ∨ p.1 > 2100 * (10 : Int) ^ p.2 then
        (false, "El año debe estar entre 1957 y 2100")
      else (true, "")

/-- The four raw form field values read from the DOM inputs. -/
structure FormData where
  name : String
  destination : String
  year : String
  status : String
deriving DecidableEq, Repr

/-- The text contents of the four error elements. -/
structure FormErrors where
  nameError : String
  destinationError : String
  yearError : String
  statusError : String
deriving DecidableEq, Repr

/-- Model of MissionManager.validateForm: all four field validators run
unconditionally (no short-circuit) and each writes its own error element;
the Bool is the conjunction of the four verdicts. -/
def validateForm (fd : FormData) : Bool × FormErrors :=
  let n := validateField fd.name "El nombre es requerido"
  let d := validateField fd.destination "El destino es requerido"
  let y := validateYear fd.year
  let s := validateField fd.status "El estado es requerido"
  (n.1 && d.1 && y.1 && s.1, ⟨n.2, d.2, y.2, s.2⟩)

/-- A mission record as constructed by the Mission class: the year field
holds the parseInt image of the year input (none models NaN), id the
generated numeric identifier, createdAt the creation timestamp string. -/
structure Mission where
  id : Nat
  name : String
  destination : String
  year : Option Int
  status : String
  createdAt : String
deriving DecidableEq, Repr

/-- Model of the Mission constructor: identifier and timestamp come from
the environment (Date.now with Math.random, and toISOString) and are
passed in; the year input is stored through parseInt. -/
def Mission.make (freshId : Nat) (now : String) (name destination year status : String) :
    Mission :=
  { id := freshId, name := name, destination := destination,
    year := parseIntJS year, status := status, createdAt := now }

/-- Model of MissionManager.getDefaultMissions; the three generated ids and
the creation timestamp are environment inputs. -/
def getDefaultMissions (i1 i2 i3 : Nat) (now : String) : List Mission :=
  [Mission.make i1 now "Voyager 1" "Espacio Interestelar" "1977" "active",
   Mission.make i2 now "Apollo 11" "Luna" "1969" "completed",
   Mission.make i3 now "Mars 2020" "Marte" "2020" "active"]

/-! ## JSON serialization, mirroring JSON.stringify on the mission array.
Key order follows the Mission constructor assignment order.  The double
quote and the backslash are escaped; the common control characters get
their short escapes. -/

/-- Escape of one character inside a JSON string literal. -/
def escapeChar (c : Char) : List Char :=
  if c = '\"' then ['\\', '\"']
  else if c = '\\' then ['\\', '\\']
  else if c = '\n' then ['\\', 'n']
  else if c = '\t' then ['\\', 't']
  else if c = '\r' then ['\\', 'r']
  else [c]

/-- Escape of a character list inside a JSON string literal. -/
def escapeChars : List Char → List Char
  | [] => []
  | c :: cs => escapeChar c ++ escapeChars cs

/-- One decimal digit character. -/
def digitChar : Nat → Char
  | 0 => '0'
  | 1 => '1'
  | 2 => '2'
  | 3 => '3'
  | 4 => '4'
  | 5 => '5'
  | 6 => '6'
  | 7 => '7'
  | 8 => '8'
  | _ => '9'

/-- Big-endian decimal digit characters of a natural number, with a fuel
argument that keeps the recursion structural (so that concrete values
reduce inside the kernel); any fuel above the number works. -/
def natToCharsAux : Nat → Nat → List Char
  | 0, _ => []
  | fuel + 1, n =>
    if n < 10 then [digitChar n]
    else natToCharsAux fuel (n / 10) ++ [digitChar (n % 10)]

/-- Big-endian decimal digit characters of a natural number. -/
def natToChars (n : Nat) : List Char :=
  natToCharsAux (n + 1) n

/-- Decimal characters of an integer. -/
def intToChars (n : Int) : List Char :=
  if n < 0 then '-' :: natToChars (-n).toNat else natToChars n.toNat

/-- JSON text of a year field: an integer, or null for NaN (JSON.stringify
renders NaN as null). -/
def yearChars : Option Int → List Char
  | none => "null".data
  | some n => intToChars n

/-- Object opener with the id key. -/
def kId : List Char := "\x7b\"id\":".data

/-- Separator and key before the name string. -/
def kName : List Char := ",\"name\":\"".data

/-- Separator and key before the destination string. -/
def kDest : List Char := ",\"destination\":\"".data

/-- Separator and key before the year value. -/
def kYear : List Char := ",\"year\":".data

/-- Separator and key before the status string. -/
def kStatus : List Char := ",\"status\":\"".data

/-- Separator and key before the createdAt string. -/
def kCreated : List Char := ",\"createdAt\":\"".data

/-- Closing brace of a mission object. -/
def kEnd : List Char := "\x7d".data

/-- JSON text of one mission object, as JSON.stringify lays it out. -/
def serializeMissionChars (m : Mission) : List Char :=
  kId ++ natToChars m.id
  ++ kName ++ escapeChars m.name.data ++ '\"'
  :: (kDest ++ escapeChars m.destination.data ++ '\"'
  :: (kYear ++ yearChars m.year
  ++ kStatus ++ escapeChars m.status.data ++ '\"'
  :: (kCreated ++ escapeChars m.createdAt.data ++ '\"'
  :: kEnd)))

/-- Comma-joined JSON texts of the array elements. -/
def serializeInnerChars : List Mission → List Char
  | [] => []
  | [m] => serializeMissionChars m
  | m :: ms => serializeMissionChars m ++ ',' :: serializeInnerChars ms

/-- Model of JSON.stringify(this.missions). -/
def serializeMissions (ms : List Mission) : String :=
  String.mk ('[' :: (serializeInnerChars ms ++ [']']))

/-! ## JSON parsing, mirroring JSON.parse on the texts this program writes.
JSON.parse throws on malformed input; the model returns the error side of
Except.  The grammar read here is the one serializeMissions emits (an
array of flat mission objects with the six fixed keys); a value outside it
is rejected as malformed. -/

deriving instance DecidableEq for Except

/-- Consume an expected literal text. -/
def expectLit : List Char → List Char → Except String (List Char)
  | [], cs => .ok cs
  | _ :: _, [] => .error "unexpected end of JSON input"
  | l :: ls, c :: cs =>
    if c = l then expectLit ls cs else .error "unexpected token in JSON"

/-- Consume a literal text when it is present. -/
def matchLit : List Char → List Char → Option (List Char)
  | [], cs => some cs
  | _ :: _, [] => none
  | l :: ls, c :: cs => if c = l then matchLit ls cs else none

/-- Read a run of decimal digits as a natural number. -/
def parseNatChars (cs : List Char) : Except String (Nat × List Char) :=
  let ds := cs.takeWhile isDigitChar
  if ds = [] then .error "expected number in JSON"
  else .ok (digitsToNat ds, cs.dropWhile isDigitChar)

/-- Meaning of a backslash escape inside a JSON string. -/
def unescapeChar (c : Char) : Option Char :=
  if c = '\"' then some '\"'
  else if c = '\\' then some '\\'
  else if c = '/' then some '/'
  else if c = 'n' then some '\n'
  else if c = 't' then some '\t'
  else if c = 'r' then some '\r'
  else none

/-- Read a JSON string body up to and through its closing quote. -/
def parseStringChars : List Char → Except String (List Char × List Char)
  | [] => .error "unterminated JSON string"
  | c :: cs =>
    if c = '\"' then .ok ([], cs)
    else if c = '\\' then
      match cs with
      | [] => .error "unterminated JSON escape"
      | e :: cs2 =>
        match unescapeChar e with
        | none => .error "bad JSON escape"
        | some d =>
          match parseStringChars cs2 with
          | .ok (sres, rest) => .ok (d :: sres, rest)
          | .error msg => .error msg
    else
      match parseStringChars cs with
      | .ok (sres, rest) => .ok (c :: sres, rest)
      | .error msg => .error msg

/-- Read a year value: null or an integer. -/
def parseYearChars (cs : List Char) : Except String (Option Int × List Char) :=
  match matchLit "null".data cs with
  | some rest => .ok (none, rest)
  | none =>
    match cs with
    | [] => .error "expected number in JSON"
    | c :: cs2 =>
      if c = '-' then
        match parseNatChars cs2 with
        | .ok (n, rest) => .ok (some (-(n : Int)), rest)
        | .error msg => .error msg
      else
        match parseNatChars (c :: cs2) with
        | .ok (n, rest) => .ok (some (n : Int), rest)
        | .error msg => .error msg

/-- Bind on Except, written out so that proofs reduce step by step. -/
def step {α β : Type} (x : Except String α) (f : α → Except String β) :
    Except String β :=
  match x with
  | .ok a => f a
  | .error msg => .error msg

/-- Read one mission object. -/
def parseMission (cs : List Char) : Except String (Mission × List Char) :=
  step (expectLit kId cs) fun cs =>
  step (parseNatChars cs) fun p1 =>
  step (expectLit kName p1.2) fun cs =>
  step (parseStringChars cs) fun p2 =>
  step (expectLit kDest p2.2) fun cs =>
  step (parseStringChars cs) fun p3 =>
  step (expectLit kYear p3.2) fun cs =>
  step (parseYearChars cs) fun p4 =>
  step (expectLit kStatus p4.2) fun cs =>
  step (parseStringChars cs) fun p5 =>
  step (expectLit kCreated p5.2) fun cs =>
  step (parseStringChars cs) fun p6 =>
  step (expectLit kEnd p6.2) fun cs =>
  .ok (⟨p1.1, String.mk p2.1, String.mk p3.1, p4.1, String.mk p5.1,
        String.mk p6.1⟩, cs)

/-- Read the comma-separated mission objects and the closing bracket of a
nonempty array; the fuel bounds the recursion by the input length. -/
def parseMissionsAux : Nat → List Char → Except String (List Mission × List Char)
  | 0, _ => .error "JSON input too deeply nested"
  | fuel + 1, cs =>
    match parseMission cs with
    | .error msg => .error msg
    | .ok (m, rest) =>
      match rest with
      | [] => .error "unexpected end of JSON input"
      | c :: rest2 =>
        if c = ',' then
          match parseMissionsAux fuel rest2 with
          | .ok (ms, rest3) => .ok (m :: ms, rest3)
          | .error msg => .error msg
        else if c = ']' then .ok ([m], rest2)
        else .error "expected comma or closing bracket in JSON"

/-- Model of JSON.parse on a stored missions value. -/
def parseMissions (s : String) : Except String (List Mission) :=
  match s.data with
  | [] => .error "expected JSON array"
  | c :: cs =>
    if c = '[' then
      match cs with
      | [] => .error "unexpected end of JSON input"
      | c2 :: cs2 =>
        if c2 = ']' then
          if cs2 = [] then .ok [] else .error "unexpected trailing JSON"
        else
          match parseMissionsAux (c2 :: cs2).length (c2 :: cs2) with
          | .ok (ms, rest) =>
            if rest = [] then .ok ms else .error "unexpected trailing JSON"
          | .error msg => .error msg
    else .error "expected JSON array"

/-! ## The mission manager state and its operations. -/

/-- The manager state: the in-memory missions array and the localStorage
slot under the missions key (none when the key is absent). -/
structure ManagerState where
  missions : List Mission
  storage : Option String
deriving DecidableEq, Repr

/-- Model of MissionManager.loadMissions: a missing key, and also the falsy
empty string, reseed with the defaults; any other stored value goes
through JSON.parse, whose failure propagates (there is no catch). -/
def loadMissions (stored : Option String) (i1 i2 i3 : Nat) (now : String) :
    Except String (List Mission) :=
  match stored with
  | none => .ok (getDefaultMissions i1 i2 i3 now)
  | some s =>
    if s = "" then .ok (getDefaultMissions i1 i2 i3 now) else parseMissions s

/-- Model of MissionManager.saveMissions: overwrite the storage key with
the JSON text of the whole collection. -/
def saveMissions (st : ManagerState) : ManagerState :=
  { st with storage := some (serializeMissions st.missions) }

/-- Model of MissionManager.createMission: construct, push to the end,
persist. -/
def createMission (freshId : Nat) (now : String)
    (name destination year status : String) (st : ManagerState) : ManagerState :=
  saveMissions
    { st with missions := st.missions ++ [Mission.make freshId now name destination year status] }

/-- The in-place mutation the edit flow applies to a found mission: the
four editable fields change, id and createdAt stay. -/
def editFields (name destination year status : String) (m : Mission) : Mission :=
  { m with name := name, destination := destination,
           year := parseIntJS year, status := status }

/-- Replace the first list entry carrying the given id. -/
def updateFirst (id : Nat) (f : Mission → Mission) : List Mission → List Mission
  | [] => []
  | m :: ms => if m.id = id then f m :: ms else m :: updateFirst id f ms

/-- Model of MissionManager.updateMission: find by id; when found, mutate
the four editable fields in place and persist; when absent, do nothing. -/
def updateMission (id : Nat) (name destination year status : String)
    (st : ManagerState) : ManagerState :=
  if (st.missions.find? fun m => m.id == id).isSome then
    saveMissions
      { st with missions := updateFirst id (editFields name destination year status) st.missions }
  else st

/-- Model of MissionManager.deleteMission: keep every mission whose id
differs, persist. -/
def deleteMission (id : Nat) (st : ManagerState) : ManagerState :=
  saveMissions { st with missions := st.missions.filter fun m => m.id != id }

/-- Model of MissionManager.handleSubmit, the create flow: read the form,
validate, and only on success construct and persist; the returned errors
are the texts of the four error elements. -/
def handleSubmit (fd : FormData) (freshId : Nat) (now : String) (st : ManagerState) :
    ManagerState × FormErrors :=
  let v := validateForm fd
  if v.1 then (createMission freshId now fd.name fd.destination fd.year fd.status st, v.2)
  else (st, v.2)

/-- Model of MissionManager.handleEditSubmit, the update flow: validate,
and only on success update the mission being edited. -/
def handleEditSubmit (editingId : Nat) (fd : FormData) (st : ManagerState) :
    ManagerState × FormErrors :=
  let v := validateForm fd
  if v.1 then (updateMission editingId fd.name fd.destination fd.year fd.status st, v.2)
  else (st, v.2)

/-- One user-level mutation of the mission collection: a create form
submission, an edit form submission, or a confirmed delete. -/
inductive UserOp where
  | submitCreate (fd : FormData) (freshId : Nat) (now : String)
  | submitEdit (editingId : Nat) (fd : FormData)
  | confirmDelete (id : Nat)
deriving DecidableEq, Repr

/-- Apply one user-level operation to the manager state. -/
def applyUserOp (st : ManagerState) : UserOp → ManagerState
  | .submitCreate fd freshId now => (handleSubmit fd freshId now st).1
  | .submitEdit editingId fd => (handleEditSubmit editingId fd st).1
  | .confirmDelete id => deleteMission id st

/-- Apply a sequence of user-level operations, oldest first. -/
def applyUserOps (st : ManagerState) (ops : List UserOp) : ManagerState :=
  ops.foldl applyUserOp st

/-- The persisted copy deserializes to the in-memory collection. -/
def inSync (st : ManagerState) : Prop :=
  ∃ s, st.storage = some s ∧ s ≠ "" ∧ parseMissions s = .ok st.missions

/-- The year-field invalidity condition as the specification words it:
year missing, non-numeric, or with a value outside 1957 to 2100. -/
def yearInvalid (y : String) : Prop :=
  y = "" ∨ toNumberJS y = none ∨
    ∃ p, toNumberJS y = some p ∧ (decVal p < MIN_YEAR ∨ MAX_YEAR < decVal p)

/-! ## The parallax controller arithmetic (js/parallax.js). -/

/-- The pointer smoothing state of ParallaxController. -/
structure MouseState where
  mouseX : ℚ
  mouseY : ℚ
  targetMouseX : ℚ
  targetMouseY : ℚ
deriving DecidableEq, Repr

/-- Model of the smoothing step at the top of ParallaxController.update:
each smoothed axis moves a tenth of the way toward its target. -/
def updateMouse (s : MouseState) : MouseState :=
  { s with mouseX := s.mouseX + (s.targetMouseX - s.mouseX) * (1 / 10),
           mouseY := s.mouseY + (s.targetMouseY - s.mouseY) * (1 / 10) }

/-- The combined transform written to one planet element. -/
structure Transform where
  translateX : ℚ
  translateY : ℚ
  rotation : ℚ
deriving DecidableEq, Repr

/-- Normalized vertical distance of a planet center from the viewport
center, as updatePlanets computes it from the bounding rectangle. -/
def distanceFromCenter (rectTop rectHeight windowHeight : ℚ) : ℚ :=
  (rectTop + rectHeight / 2 - windowHeight / 2) / windowHeight

/-- Model of the per-element body of ParallaxController.updatePlanets:
translate by the scaled smoothed pointer offset plus the vertical
parallax term, rotate with the scroll offset. -/
def planetTransform (mouseX mouseY scrollY : ℚ) (index : Nat) (distance : ℚ) :
    Transform :=
  { translateX := mouseX * (10 + index * 5),
    translateY := mouseY * (10 + index * 5) + distance * 30,
    rotation := scrollY * (5 / 100 + index * (2 / 100)) }

/-- Model of ParallaxController.updateProgress: with the progress element
present the width becomes the clamped scroll percentage, otherwise the
step is a no-op and the width keeps its current value. -/
def updateProgress (hasProgressBar : Bool) (documentHeight windowHeight scrollY : ℚ)
    (currentWidth : ℚ) : ℚ :=
  if hasProgressBar then
    let maxScroll := documentHeight - windowHeight
    let scrollPercentage := scrollY / maxScroll * 100
    min scrollPercentage 100
  else currentWidth

/-! ## Lemmas: decimal digits and their round trip. -/

theorem digitChar_isDigit (d : Nat) (h : d < 10) : isDigitChar (digitChar d) = true := by
  interval_cases d <;> decide

theorem digitChar_val (d : Nat) (h : d < 10) : (digitChar d).toNat - 48 = d := by
  interval_cases d <;> decide

theorem digitsToNat_snoc (ds : List Char) (c : Char) :
    digitsToNat (ds ++ [c]) = digitsToNat ds * 10 + (c.toNat - 48) := by
  simp [digitsToNat, List.foldl_append]

theorem natToCharsAux_irrel (n : Nat) : ∀ f1 f2, n < f1 → n < f2 →
    natToCharsAux f1 n = natToCharsAux f2 n := by
  induction n using Nat.strong_induction_on with
  | _ n ih =>
    intro f1 f2 h1 h2
    match f1, f2 with
    | g1 + 1, g2 + 1 =>
      simp only [natToCharsAux]
      by_cases h : n < 10
      · simp [h]
      · simp only [if_neg h]
        have hd : n / 10 < n := Nat.div_lt_self (by omega) (by omega)
        rw [ih (n / 10) hd g1 g2 (by omega) (by omega)]

theorem natToChars_eq (n : Nat) :
    natToChars n =
      if n < 10 then [digitChar n] else natToChars (n / 10) ++ [digitChar (n % 10)] := by
  by_cases h : n < 10
  · simp [natToChars, natToCharsAux, h]
  · have hd : n / 10 < n := Nat.div_lt_self (by omega) (by omega)
    have h1 : natToChars n = natToCharsAux n (n / 10) ++ [digitChar (n % 10)] := by
      simp [natToChars, natToCharsAux, h]
    rw [h1, natToCharsAux_irrel (n / 10) n (n / 10 + 1) (by omega) (by omega)]
    simp [natToChars, h]

theorem natToChars_roundtrip (n : Nat) : digitsToNat (natToChars n) = n := by
  induction n using Nat.strong_induction_on with
  | _ n ih =>
    rw [natToChars_eq]
    by_cases h : n < 10
    · have := digitChar_val n h
      simp [h, digitsToNat]
      omega
    · simp only [if_neg h]
      rw [digitsToNat_snoc, ih (n / 10) (Nat.div_lt_self (by omega) (by omega)),
          digitChar_val (n % 10) (Nat.mod_lt _ (by omega))]
      omega

theorem natToChars_all_digits (n : Nat) : ∀ c ∈ natToChars n, isDigitChar c = true := by
  induction n using Nat.strong_induction_on with
  | _ n ih =>
    rw [natToChars_eq]
    by_cases h : n < 10
    · simp only [if_pos h, List.mem_singleton]
      intro c hc
      subst hc
      exact digitChar_isDigit n h
    · simp only [if_neg h]
      intro c hc
      rcases List.mem_append.1 hc with h1 | h2
      · exact ih (n / 10) (Nat.div_lt_self (by omega) (by omega)) c h1
      · rw [List.mem_singleton.1 h2]
        exact digitChar_isDigit _ (Nat.mod_lt _ (by omega))

theorem natToChars_ne_nil (n : Nat) : natToChars n ≠ [] := by
  rw [natToChars_eq]
  by_cases h : n < 10 <;> simp [h]

theorem takeWhile_dropWhile_append (p : Char → Bool) (ds rest : List Char)
    (hd : ∀ c ∈ ds, p c = true)
    (hr : ∀ c, rest.head? = some c → p c = false) :
    (ds ++ rest).takeWhile p = ds ∧ (ds ++ rest).dropWhile p = rest := by
  induction ds with
  | nil =>
    simp only [List.nil_append]
    cases rest with
    | nil => simp
    | cons c t =>
      have hc := hr c rfl
      simp [List.takeWhile_cons, List.dropWhile_cons, hc]
  | cons c ds ih =>
    have hc := hd c (by simp)
    have ht := ih fun x hx => hd x (by simp [hx])
    simp [List.takeWhile_cons, List.dropWhile_cons, hc, ht.1, ht.2]

theorem parseNatChars_append (n : Nat) (rest : List Char)
    (hr : ∀ c, rest.head? = some c → isDigitChar c = false) :
    parseNatChars (natToChars n ++ rest) = .ok (n, rest) := by
  have h := takeWhile_dropWhile_append isDigitChar (natToChars n) rest
    (natToChars_all_digits n) hr
  simp [parseNatChars, h.1, h.2, natToChars_ne_nil, natToChars_roundtrip]

/-! ## Lemmas: literal and string parsing round trips. -/

theorem expectLit_append (ls rest : List Char) : expectLit ls (ls ++ rest) = .ok rest := by
  induction ls with
  | nil => rfl
  | cons l ls ih => simp [expectLit, ih]

theorem matchLit_append (ls rest : List Char) : matchLit ls (ls ++ rest) = some rest := by
  induction ls with
  | nil => rfl
  | cons l ls ih => simp [matchLit, ih]

theorem matchLit_cons_ne (l c : Char) (ls cs : List Char) (h : c ≠ l) :
    matchLit (l :: ls) (c :: cs) = none := by
  simp [matchLit, h]

theorem escapeChar_spec (c : Char) :
    (∃ e, escapeChar c = ['\\', e] ∧ unescapeChar e = some c) ∨
    (escapeChar c = [c] ∧ c ≠ '\"' ∧ c ≠ '\\') := by
  unfold escapeChar
  split_ifs with h1 h2 h3 h4 h5
  · exact Or.inl ⟨'\"', rfl, by subst h1; decide⟩
  · exact Or.inl ⟨'\\', rfl, by subst h2; decide⟩
  · exact Or.inl ⟨'n', rfl, by subst h3; decide⟩
  · exact Or.inl ⟨'t', rfl, by subst h4; decide⟩
  · exact Or.inl ⟨'r', rfl, by subst h5; decide⟩
  · exact Or.inr ⟨rfl, h1, h2⟩

theorem parseStringChars_roundtrip (s rest : List Char) :
    parseStringChars (escapeChars s ++ ('\"' :: rest)) = .ok (s, rest) := by
  induction s with
  | nil =>
    show parseStringChars ('\"' :: rest) = _
    unfold parseStringChars
    simp
  | cons c cs ih =>
    rcases escapeChar_spec c with ⟨e, he, hu⟩ | ⟨he, h1, h2⟩
    · have hb : ('\\' : Char) ≠ '\"' := by decide
      simp [escapeChars, he, parseStringChars, hb, hu, ih]
    · show parseStringChars (escapeChar c ++ escapeChars cs ++ '\"' :: rest) = _
      rw [he]
      show parseStringChars (c :: (escapeChars cs ++ '\"' :: rest)) = _
      unfold parseStringChars
      rw [if_neg h1, if_neg h2, ih]

/-! ## Lemmas: year, mission and array round trips. -/

theorem step_ok {α β : Type} (a : α) (f : α → Except String β) :
    step (.ok a) f = f a := rfl

theorem string_mk_data (s : String) : String.mk s.data = s := rfl

theorem head_cons_not_digit (c : Char) (t : List Char) (hc : isDigitChar c = false) :
    ∀ x, (c :: t).head? = some x → isDigitChar x = false := by
  intro x hx
  simp only [List.head?_cons, Option.some.injEq] at hx
  exact hx ▸ hc

theorem natToChars_cons (n : Nat) :
    ∃ d ds, natToChars n = d :: ds ∧ isDigitChar d = true := by
  obtain ⟨d, ds, h⟩ := List.exists_cons_of_ne_nil (natToChars_ne_nil n)
  exact ⟨d, ds, h, natToChars_all_digits n d (h ▸ List.mem_cons_self d ds)⟩

theorem parseNat_before_kName (n : Nat) (t : List Char) :
    parseNatChars (natToChars n ++ (kName ++ t)) = .ok (n, kName ++ t) := by
  apply parseNatChars_append
  rw [show kName ++ t = ',' :: ("\"name\":\"".data ++ t) from rfl]
  exact head_cons_not_digit ',' _ (by decide)

theorem parseNat_before_kStatus (n : Nat) (t : List Char) :
    parseNatChars (natToChars n ++ (kStatus ++ t)) = .ok (n, kStatus ++ t) := by
  apply parseNatChars_append
  rw [show kStatus ++ t = ',' :: ("\"status\":\"".data ++ t) from rfl]
  exact head_cons_not_digit ',' _ (by decide)

theorem parseYearChars_append (y : Option Int) (t : List Char) :
    parseYearChars (yearChars y ++ (kStatus ++ t)) = .ok (y, kStatus ++ t) := by
  cases y with
  | none =>
    show parseYearChars ("null".data ++ (kStatus ++ t)) = _
    unfold parseYearChars
    rw [matchLit_append]
  | some n =>
    by_cases hn : n < 0
    · have h1 : yearChars (some n) ++ (kStatus ++ t) =
          '-' :: (natToChars (-n).toNat ++ (kStatus ++ t)) := by
        simp [yearChars, intToChars, hn]
      rw [h1]
      unfold parseYearChars
      rw [show ("null").data = 'n' :: "ull".data from rfl]
      rw [matchLit_cons_ne _ _ _ _ (by decide)]
      simp only [if_pos rfl, parseNat_before_kStatus]
      have h2 : (((-n).toNat : Int)) = -n := Int.toNat_of_nonneg (by omega)
      simp [h2]
    · obtain ⟨d, ds, hds, hdd⟩ := natToChars_cons n.toNat
      have h1 : yearChars (some n) ++ (kStatus ++ t) =
          d :: (ds ++ (kStatus ++ t)) := by
        simp [yearChars, intToChars, hn, hds]
      rw [h1]
      unfold parseYearChars
      rw [show ("null").data = 'n' :: "ull".data from rfl]
      have hne : d ≠ 'n' := by
        intro he
        rw [he] at hdd
        revert hdd
        decide
      rw [matchLit_cons_ne _ _ _ _ hne]
      have hnm : d ≠ '-' := by
        intro he
        rw [he] at hdd
        revert hdd
        decide
      simp only [if_neg hnm]
      have h3 : d :: (ds ++ (kStatus ++ t)) = natToChars n.toNat ++ (kStatus ++ t) := by
        rw [hds]
        rfl
      rw [h3, parseNat_before_kStatus]
      have h4 : ((n.toNat : Int)) = n := Int.toNat_of_nonneg (by omega)
      simp [h4]

theorem parseMission_serialize (m : Mission) (rest : List Char) :
    parseMission (serializeMissionChars m ++ rest) = .ok (m, rest) := by
  simp only [serializeMissionChars, List.append_assoc, List.cons_append]
  simp only [parseMission, expectLit_append, step_ok, parseNat_before_kName,
    parseStringChars_roundtrip, parseYearChars_append, parseNat_before_kStatus,
    string_mk_data]

theorem serializeMissionChars_cons (m : Mission) :
    ∃ t, serializeMissionChars m = '\x7b' :: t :=
  ⟨_, rfl⟩

theorem serializeInner_cons (m : Mission) (tl : List Mission) :
    ∃ u, serializeInnerChars (m :: tl) = '\x7b' :: u := by
  obtain ⟨t, ht⟩ := serializeMissionChars_cons m
  cases tl with
  | nil => exact ⟨t, by simp [serializeInnerChars, ht]⟩
  | cons m2 tl2 =>
    exact ⟨t ++ ',' :: serializeInnerChars (m2 :: tl2),
      by simp [serializeInnerChars, ht]⟩

theorem length_le_serializeInner (ms : List Mission) :
    ms.length ≤ (serializeInnerChars ms).length := by
  induction ms with
  | nil => simp [serializeInnerChars]
  | cons m tl ih =>
    obtain ⟨t, ht⟩ := serializeMissionChars_cons m
    cases tl with
    | nil => simp [serializeInnerChars, ht]
    | cons m2 tl2 =>
      have h1 : serializeInnerChars (m :: m2 :: tl2) =
          serializeMissionChars m ++ ',' :: serializeInnerChars (m2 :: tl2) := rfl
      rw [h1, ht]
      simp only [List.length_cons, List.length_append]
      have := ih
      simp only [List.length_cons] at this ⊢
      omega

theorem parseMissionsAux_serialize :
    ∀ (ms : List Mission) (fuel : Nat) (rest : List Char), ms ≠ [] →
      ms.length ≤ fuel →
      parseMissionsAux fuel (serializeInnerChars ms ++ (']' :: rest)) =
        .ok (ms, rest) := by
  intro ms
  induction ms with
  | nil => intro fuel rest h; exact absurd rfl h
  | cons m tl ih =>
    intro fuel rest _ hf
    cases fuel with
    | zero => simp at hf
    | succ f =>
      cases tl with
      | nil =>
        have h1 : serializeInnerChars [m] ++ (']' :: rest) =
            serializeMissionChars m ++ (']' :: rest) := rfl
        rw [h1]
        simp only [parseMissionsAux, parseMission_serialize]
        simp
      | cons m2 tl2 =>
        have h1 : serializeInnerChars (m :: m2 :: tl2) ++ (']' :: rest) =
            serializeMissionChars m ++
              (',' :: (serializeInnerChars (m2 :: tl2) ++ (']' :: rest))) := by
          show (serializeMissionChars m ++ ',' :: serializeInnerChars (m2 :: tl2)) ++
              (']' :: rest) = _
          simp [List.append_assoc]
        rw [h1]
        simp only [parseMissionsAux, parseMission_serialize]
        simp only [if_true]
        rw [ih f rest (by simp) (by simp at hf ⊢; omega)]

theorem serializeMissions_data (ms : List Mission) :
    (serializeMissions ms).data = '[' :: (serializeInnerChars ms ++ [']']) := rfl

theorem parseMissions_serialize (ms : List Mission) :
    parseMissions (serializeMissions ms) = .ok ms := by
  cases ms with
  | nil => decide
  | cons m tl =>
    obtain ⟨u, hu⟩ := serializeInner_cons m tl
    have hu2 : '\x7b' :: (u ++ [']']) = serializeInnerChars (m :: tl) ++ (']' :: []) := by
      rw [hu]
      rfl
    have hlen : (m :: tl).length ≤ ('\x7b' :: (u ++ [']'])).length := by
      have h2 := length_le_serializeInner (m :: tl)
      have h3 : ('\x7b' :: (u ++ [']'])).length =
          (serializeInnerChars (m :: tl)).length + 1 := by
        rw [hu2]
        simp
      omega
    have haux := parseMissionsAux_serialize (m :: tl)
      (('\x7b' :: (u ++ [']'])).length) [] (by simp) hlen
    rw [← hu2] at haux
    have hne : ('\x7b' : Char) = ']' ↔ False := by decide
    simp only [parseMissions, serializeMissions_data, hu, List.cons_append, hne,
      iff_false, if_pos rfl, if_false, haux]
    simp

/-! ## Lemmas: persistence stays in sync with the collection. -/

theorem updateFirst_append (id : Nat) (f : Mission → Mission) (pre : List Mission)
    (m : Mission) (post : List Mission) (hpre : ∀ x ∈ pre, x.id ≠ id) (hm : m.id = id) :
    updateFirst id f (pre ++ m :: post) = pre ++ f m :: post := by
  induction pre with
  | nil => simp [updateFirst, hm]
  | cons x xs ih =>
    have hx := hpre x (by simp)
    rw [List.cons_append, updateFirst, if_neg hx,
      ih fun y hy => hpre y (by simp [hy])]
    rfl

theorem find_eq_none_of_forall (ms : List Mission) (id : Nat)
    (h : ∀ m ∈ ms, m.id ≠ id) : (ms.find? fun x => x.id == id) = none := by
  rw [List.find?_eq_none]
  intro x hx
  simp [h x hx]

theorem find_isSome_of_mem (ms : List Mission) (id : Nat) (m : Mission)
    (hm : m ∈ ms) (hid : m.id = id) : (ms.find? fun x => x.id == id).isSome := by
  rw [List.find?_isSome]
  exact ⟨m, hm, by simp [hid]⟩

theorem serializeMissions_ne_empty (ms : List Mission) : serializeMissions ms ≠ "" := by
  intro h
  have h2 : (serializeMissions ms).data = "".data := by rw [h]
  rw [serializeMissions_data] at h2
  simp at h2

theorem inSync_save (st : ManagerState) : inSync (saveMissions st) :=
  ⟨serializeMissions st.missions, rfl, serializeMissions_ne_empty _,
   parseMissions_serialize st.missions⟩

theorem inSync_applyUserOp (st : ManagerState) (op : UserOp) (h : inSync st) :
    inSync (applyUserOp st op) := by
  cases op with
  | submitCreate fd freshId now =>
    simp only [applyUserOp, handleSubmit]
    by_cases hv : (validateForm fd).1
    · simp only [if_pos hv]
      exact inSync_save _
    · simp only [if_neg hv]
      exact h
  | submitEdit eid fd =>
    simp only [applyUserOp, handleEditSubmit]
    by_cases hv : (validateForm fd).1
    · simp only [if_pos hv]
      unfold updateMission
      by_cases hf : (st.missions.find? fun m => m.id == eid).isSome
      · simp only [if_pos hf]
        exact inSync_save _
      · simp only [if_neg hf]
        exact h
    · simp only [if_neg hv]
      exact h
  | confirmDelete id => exact inSync_save _

theorem loadMissions_of_inSync (st : ManagerState) (h : inSync st) (i1 i2 i3 : Nat)
    (now : String) : loadMissions st.storage i1 i2 i3 now = .ok st.missions := by
  obtain ⟨s, hs, hne, hp⟩ := h
  rw [hs]
  simp [loadMissions, hne, hp]

/-- C6: every actual mutation (a confirmed delete, a valid create
submission, a valid edit of a present id) leaves the persisted copy
deserializing to exactly the in-memory collection, and any further
sequence of user operations preserves this: reading the collection back
from durable storage after the last mutation returns a collection
structurally equal to the in-memory one; the serialize then deserialize
round trip loses none of the id, name, destination, year, status and
createdAt fields. -/
theorem claim_C6_roundtrip (st st2 : ManagerState) (ops : List UserOp)
    (i1 i2 i3 id : Nat) (now : String) :
    (inSync st →
      loadMissions (applyUserOps st ops).storage i1 i2 i3 now =
        .ok (applyUserOps st ops).missions) ∧
    inSync (deleteMission id st2) ∧
    (∀ fd freshId nowc, (validateForm fd).1 = true →
      inSync (handleSubmit fd freshId nowc st2).1) ∧
    (∀ fd eid m, m ∈ st2.missions → m.id = eid → (validateForm fd).1 = true →
      inSync (handleEditSubmit eid fd st2).1) := by
  refine ⟨?_, inSync_save _, ?_, ?_⟩
  · intro h
    have hsync : inSync (applyUserOps st ops) := by
      induction ops generalizing st with
      | nil => exact h
      | cons op tl ih => exact ih _ (inSync_applyUserOp st op h)
    exact loadMissions_of_inSync _ hsync i1 i2 i3 now
  · intro fd freshId nowc hv
    rw [show (handleSubmit fd freshId nowc st2).1 = createMission freshId nowc
      fd.name fd.destination fd.year fd.status st2 from by simp [handleSubmit, hv]]
    exact inSync_save _
  · intro fd eid m hm hid hv
    rw [show (handleEditSubmit eid fd st2).1 = updateMission eid fd.name
      fd.destination fd.year fd.status st2 from by simp [handleEditSubmit, hv]]
    unfold updateMission
    rw [if_pos (find_isSome_of_mem st2.missions eid m hm hid)]
    exact inSync_save _

/-- Counterexample for C1: a stored value that is not parseable as JSON does
not reseed with the defaults; loadMissions propagates the parse error, as
the source has no catch around JSON.parse. -/
theorem claim_C1_counterexample :
    loadMissions (some "not json") 1 2 3 "t" = .error "expected JSON array" ∧
    loadMissions (some "not json") 1 2 3 "t" ≠
      .ok (getDefaultMissions 1 2 3 "t") := by
  decide

/-- C1 (amended): when the storage key is missing, loadMissions returns the
three literal default records (Voyager 1/1977/active, Apollo 11/1969/
completed, Mars 2020/2020/active) in that order; when the stored value is
malformed, the JSON.parse failure propagates out of loadMissions uncaught
instead of reseeding with the defaults. -/
theorem claim_C1_load (i1 i2 i3 : Nat) (now : String) :
    loadMissions none i1 i2 i3 now =
      .ok [⟨i1, "Voyager 1", "Espacio Interestelar", some 1977, "active", now⟩,
           ⟨i2, "Apollo 11", "Luna", some 1969, "completed", now⟩,
           ⟨i3, "Mars 2020", "Marte", some 2020, "active", now⟩] ∧
    loadMissions (some "") i1 i2 i3 now =
      .ok [⟨i1, "Voyager 1", "Espacio Interestelar", some 1977, "active", now⟩,
           ⟨i2, "Apollo 11", "Luna", some 1969, "completed", now⟩,
           ⟨i3, "Mars 2020", "Marte", some 2020, "active", now⟩] ∧
    (∀ s e, s ≠ "" → parseMissions s = .error e →
      loadMissions (some s) i1 i2 i3 now = .error e) := by
  refine ⟨rfl, rfl, ?_⟩
  intro s e hne hp
  simp [loadMissions, hne, hp]

/-- C2: deleteMission keeps an order-preserving sublist, retains exactly the
records whose id differs from the given one, and leaves the collection
unchanged when no record carries that id. -/
theorem claim_C2_delete (st : ManagerState) (id : Nat) :
    ((deleteMission id st).missions.Sublist st.missions) ∧
    (∀ m ∈ st.missions, m.id ≠ id → m ∈ (deleteMission id st).missions) ∧
    (∀ m ∈ (deleteMission id st).missions, m ∈ st.missions ∧ m.id ≠ id) ∧
    ((∀ m ∈ st.missions, m.id ≠ id) → (deleteMission id st).missions = st.missions) := by
  have hm : (deleteMission id st).missions =
      st.missions.filter (fun m => m.id != id) := rfl
  refine ⟨?_, ?_, ?_, ?_⟩
  · rw [hm]
    exact List.filter_sublist _
  · intro m hmem hne
    rw [hm]
    exact List.mem_filter.2 ⟨hmem, by simp [hne]⟩
  · intro m hmem
    rw [hm] at hmem
    have h2 := List.mem_filter.1 hmem
    exact ⟨h2.1, by simpa using h2.2⟩
  · intro hall
    rw [hm]
    apply List.filter_eq_self.2
    intro m hmem
    simp [hall m hmem]

/-! ## Lemmas: the update flow. -/

/-- C5: updateMission with an id that no record carries is a complete no-op
(collection and persisted copy both untouched); with an id carried by a
record it rewrites exactly the four editable fields of the first such
record, keeping its id and createdAt and every other record. -/
theorem claim_C5_update (st : ManagerState) (id : Nat)
    (name dest year status : String) :
    ((∀ m ∈ st.missions, m.id ≠ id) →
      updateMission id name dest year status st = st) ∧
    (∀ pre m post, st.missions = pre ++ m :: post → (∀ x ∈ pre, x.id ≠ id) →
      m.id = id →
      (updateMission id name dest year status st).missions =
        pre ++
          { m with
            name := name, destination := dest,
            year := parseIntJS year, status := status } :: post) := by
  constructor
  · intro hall
    unfold updateMission
    rw [find_eq_none_of_forall st.missions id hall]
    simp
  · intro pre m post hsplit hpre hm
    unfold updateMission
    have hs : (st.missions.find? fun x => x.id == id).isSome := by
      apply find_isSome_of_mem st.missions id m _ hm
      rw [hsplit]
      simp
    rw [if_pos hs]
    show updateFirst id (editFields name dest year status) st.missions = _
    rw [hsplit, updateFirst_append id _ pre m post hpre hm]
    rfl

/-! ## Lemmas: validation. -/

theorem trim_empty_of (v : String) (h : v = "" ∨ jsTrim v = "") : jsTrim v = "" := by
  rcases h with h | h
  · rw [h]
    rfl
  · exact h

theorem validateField_fail (v msg : String) (h : jsTrim v = "") :
    validateField v msg = (false, msg) := by
  unfold validateField
  rw [if_pos (Or.inr h)]

theorem validateField_ok (v msg : String) (h : jsTrim v ≠ "") :
    validateField v msg = (true, "") := by
  unfold validateField
  rw [if_neg fun hc => h (trim_empty_of v hc)]

theorem decVal_lt_iff (p : Int × Nat) (a : Int) :
    decVal p < (a : ℚ) ↔ p.1 < a * 10 ^ p.2 := by
  unfold decVal
  rw [div_lt_iff₀ (by positivity)]
  constructor
  · intro h
    exact_mod_cast h
  · intro h
    exact_mod_cast h

theorem lt_decVal_iff (p : Int × Nat) (a : Int) :
    (a : ℚ) < decVal p ↔ a * 10 ^ p.2 < p.1 := by
  unfold decVal
  rw [lt_div_iff₀ (by positivity)]
  constructor
  · intro h
    exact_mod_cast h
  · intro h
    exact_mod_cast h

theorem validateYear_fail_of_invalid (y : String) (h : yearInvalid y) :
    (validateYear y).1 = false ∧ (validateYear y).2 ≠ "" := by
  unfold validateYear
  by_cases h0 : y = ""
  · rw [if_pos h0]
    exact ⟨rfl, by decide⟩
  · rw [if_neg h0]
    rcases h with hc | hn | ⟨p, hp, hr⟩
    · exact absurd hc h0
    · rw [hn]
      exact ⟨rfl, by decide⟩
    · simp only [hp]
      have hcond : p.1 < 1957 * (10 : Int) ^ p.2 ∨ p.1 > 2100 * (10 : Int) ^ p.2 := by
        rcases hr with hr | hr
        · left
          have hm : MIN_YEAR = ((1957 : Int) : ℚ) := by norm_num [MIN_YEAR]
          rw [hm] at hr
          exact (decVal_lt_iff p 1957).1 hr
        · right
          have hm : MAX_YEAR = ((2100 : Int) : ℚ) := by norm_num [MAX_YEAR]
          rw [hm] at hr
          exact (lt_decVal_iff p 2100).1 hr
      rw [if_pos hcond]
      exact ⟨rfl, by decide⟩

theorem validateYear_ok_of_not_invalid (y : String) (h : ¬ yearInvalid y) :
    validateYear y = (true, "") := by
  unfold validateYear
  by_cases h0 : y = ""
  · exact absurd (Or.inl h0) h
  · rw [if_neg h0]
    cases hy : toNumberJS y with
    | none => exact absurd (Or.inr (Or.inl hy)) h
    | some p =>
      have hno : ¬(p.1 < 1957 * (10 : Int) ^ p.2 ∨ p.1 > 2100 * (10 : Int) ^ p.2) := by
        rintro (hl | hg)
        · refine h (Or.inr (Or.inr ⟨p, hy, Or.inl ?_⟩))
          have hm : MIN_YEAR = ((1957 : Int) : ℚ) := by norm_num [MIN_YEAR]
          rw [hm]
          exact (decVal_lt_iff p 1957).2 hl
        · refine h (Or.inr (Or.inr ⟨p, hy, Or.inr ?_⟩))
          have hm : MAX_YEAR = ((2100 : Int) : ℚ) := by norm_num [MAX_YEAR]
          rw [hm]
          exact (lt_decVal_iff p 2100).2 hg
      show (if p.1 < 1957 * (10 : Int) ^ p.2 ∨ p.1 > 2100 * (10 : Int) ^ p.2 then
          ((false : Bool), "El año debe estar entre 1957 y 2100")
        else (true, "")) = (true, "")
      rw [if_neg hno]

theorem validateForm_fst (fd : FormData) :
    (validateForm fd).1 = ((validateField fd.name "El nombre es requerido").1 &&
      (validateField fd.destination "El destino es requerido").1 &&
      (validateYear fd.year).1 &&
      (validateField fd.status "El estado es requerido").1) := rfl

theorem validateForm_errors (fd : FormData) :
    (validateForm fd).2 = ⟨(validateField fd.name "El nombre es requerido").2,
      (validateField fd.destination "El destino es requerido").2,
      (validateYear fd.year).2,
      (validateField fd.status "El estado es requerido").2⟩ := rfl

/-- C3: whenever any field is invalid (name or destination trimming to
empty, year missing or non-numeric or out of 1957 to 2100, or status
empty), the create and the edit submissions leave the state completely
unchanged; moreover each of the four fields is validated on its own (no
short-circuit): a field shows a non-empty error message exactly when that
field itself is invalid, whatever the other fields hold. -/
theorem claim_C3_invalid_noop (fd : FormData) (freshId eid : Nat) (now : String)
    (st : ManagerState)
    (hinv : jsTrim fd.name = "" ∨ jsTrim fd.destination = "" ∨ yearInvalid fd.year ∨
      jsTrim fd.status = "") :
    (handleSubmit fd freshId now st).1 = st ∧
    (handleEditSubmit eid fd st).1 = st ∧
    (jsTrim fd.name = "" ↔ (validateForm fd).2.nameError ≠ "") ∧
    (jsTrim fd.destination = "" ↔ (validateForm fd).2.destinationError ≠ "") ∧
    (yearInvalid fd.year ↔ (validateForm fd).2.yearError ≠ "") ∧
    (jsTrim fd.status = "" ↔ (validateForm fd).2.statusError ≠ "") := by
  have hfalse : (validateForm fd).1 = false := by
    rw [validateForm_fst]
    rcases hinv with h | h | h | h
    · rw [validateField_fail _ _ h]
      simp
    · rw [validateField_fail _ _ h]
      simp
    · have hy := (validateYear_fail_of_invalid _ h).1
      simp [hy]
    · rw [validateField_fail _ _ h]
      simp
  refine ⟨?_, ?_, ?_, ?_, ?_, ?_⟩
  · simp [handleSubmit, hfalse]
  · simp [handleEditSubmit, hfalse]
  · show jsTrim fd.name = "" ↔ (validateField fd.name "El nombre es requerido").2 ≠ ""
    constructor
    · intro h
      rw [validateField_fail _ _ h]
      decide
    · intro h
      by_contra hc
      rw [validateField_ok _ _ hc] at h
      exact h rfl
  · show jsTrim fd.destination = "" ↔
      (validateField fd.destination "El destino es requerido").2 ≠ ""
    constructor
    · intro h
      rw [validateField_fail _ _ h]
      decide
    · intro h
      by_contra hc
      rw [validateField_ok _ _ hc] at h
      exact h rfl
  · show yearInvalid fd.year ↔ (validateYear fd.year).2 ≠ ""
    constructor
    · intro h
      exact (validateYear_fail_of_invalid _ h).2
    · intro h
      by_contra hc
      rw [validateYear_ok_of_not_invalid _ hc] at h
      exact h rfl
  · show jsTrim fd.status = "" ↔ (validateField fd.status "El estado es requerido").2 ≠ ""
    constructor
    · intro h
      rw [validateField_fail _ _ h]
      decide
    · intro h
      by_contra hc
      rw [validateField_ok _ _ hc] at h
      exact h rfl

/-- Witness for C3: an empty name with otherwise sensible fields blocks the
create and the edit flows and lights exactly the name error. -/
theorem claim_C3_invalid_noop_witness :
    (jsTrim "" = "" ∨ jsTrim "Luna" = "" ∨ yearInvalid "1969" ∨
      jsTrim "active" = "") ∧
    ((handleSubmit ⟨"", "Luna", "1969", "active"⟩ 7 "t" ⟨[], none⟩).1 = ⟨[], none⟩ ∧
     (handleEditSubmit 9 ⟨"", "Luna", "1969", "active"⟩ ⟨[], none⟩).1 = ⟨[], none⟩ ∧
     (jsTrim "" = "" ↔ (validateForm ⟨"", "Luna", "1969", "active"⟩).2.nameError ≠ "") ∧
     (jsTrim "Luna" = "" ↔
       (validateForm ⟨"", "Luna", "1969", "active"⟩).2.destinationError ≠ "") ∧
     (yearInvalid "1969" ↔
       (validateForm ⟨"", "Luna", "1969", "active"⟩).2.yearError ≠ "") ∧
     (jsTrim "active" = "" ↔
       (validateForm ⟨"", "Luna", "1969", "active"⟩).2.statusError ≠ "")) :=
  ⟨Or.inl rfl,
   claim_C3_invalid_noop ⟨"", "Luna", "1969", "active"⟩ 7 9 "t" ⟨[], none⟩ (Or.inl rfl)⟩

/-! ## Lemmas: the ToNumber and parseInt views of a validated year agree
up to truncation. -/

theorem le_decVal_iff (p : Int × Nat) (a : Int) :
    (a : ℚ) ≤ decVal p ↔ a * 10 ^ p.2 ≤ p.1 := by
  unfold decVal
  rw [le_div_iff₀ (by positivity)]
  constructor
  · intro h
    exact_mod_cast h
  · intro h
    exact_mod_cast h

theorem space_not_digit (c : Char) (h : isJsSpace c = true) : isDigitChar c = false := by
  simp only [isJsSpace, Bool.or_eq_true, decide_eq_true_eq] at h
  rcases h with ((h | h) | h) | h <;> subst h <;> decide

theorem drop_trailing_decomp (l : List Char) :
    l = (l.reverse.dropWhile isJsSpace).reverse ++
        (l.reverse.takeWhile isJsSpace).reverse ∧
      ∀ c ∈ (l.reverse.takeWhile isJsSpace).reverse, isJsSpace c = true := by
  constructor
  · conv_lhs => rw [← List.reverse_reverse l,
      ← List.takeWhile_append_dropWhile (p := isJsSpace) (l := l.reverse)]
    rw [List.reverse_append]
  · intro c hc
    rw [List.mem_reverse] at hc
    exact List.mem_takeWhile_imp hc

theorem afterSign_append (cs w : List Char) (h : cs ≠ []) :
    afterSign (cs ++ w) = ((afterSign cs).1, (afterSign cs).2 ++ w) := by
  cases cs with
  | nil => exact absurd rfl h
  | cons c t =>
    show afterSign (c :: (t ++ w)) = _
    unfold afterSign
    by_cases h1 : c = '-'
    · simp [h1]
    · by_cases h2 : c = '+'
      · simp [h1, h2]
      · simp [h1, h2]

theorem foldl_digits_lt (ds : List Char) : ∀ a : Nat, (∀ c ∈ ds, isDigitChar c = true) →
    ds.foldl (fun a c => a * 10 + (c.toNat - 48)) a < (a + 1) * 10 ^ ds.length := by
  induction ds with
  | nil =>
    intro a _
    simp
  | cons c t ih =>
    intro a hall
    have hc := hall c (by simp)
    have hv : c.toNat - 48 ≤ 9 := by
      simp [isDigitChar] at hc
      omega
    have hrec := ih (a * 10 + (c.toNat - 48)) fun x hx => hall x (by simp [hx])
    simp only [List.foldl_cons, List.length_cons]
    refine lt_of_lt_of_le hrec ?_
    have h2 : a * 10 + (c.toNat - 48) + 1 ≤ (a + 1) * 10 := by omega
    calc (a * 10 + (c.toNat - 48) + 1) * 10 ^ t.length
        ≤ ((a + 1) * 10) * 10 ^ t.length := Nat.mul_le_mul_right _ h2
      _ = (a + 1) * 10 ^ (t.length + 1) := by ring

theorem digitsToNat_lt (ds : List Char) (h : ∀ c ∈ ds, isDigitChar c = true) :
    digitsToNat ds < 10 ^ ds.length := by
  have h2 := foldl_digits_lt ds 0 h
  simpa [digitsToNat] using h2

theorem toNumber_parseInt_bridge (s : String) (p : Int × Nat)
    (hp : toNumberJS s = some p) (h1 : MIN_YEAR ≤ decVal p) :
    ∃ n : Nat, parseIntJS s = some ((n : Int)) ∧ ((n : ℚ)) ≤ decVal p ∧
      decVal p < (n : ℚ) + 1 := by
  obtain ⟨hdec, hwsp⟩ := drop_trailing_decomp (s.data.dropWhile isJsSpace)
  have hmin : MIN_YEAR = ((1957 : Int) : ℚ) := by norm_num [MIN_YEAR]
  simp only [toNumberJS] at hp
  by_cases hcs2 : ((s.data.dropWhile isJsSpace).reverse.dropWhile isJsSpace).reverse = []
  · rw [if_pos hcs2] at hp
    injection hp with hp2
    rw [← hp2] at h1
    norm_num [decVal, MIN_YEAR] at h1
  · rw [if_neg hcs2] at hp
    set cs1 := s.data.dropWhile isJsSpace with hcs1def
    set cs2 := (cs1.reverse.dropWhile isJsSpace).reverse with hcs2def
    set w := (cs1.reverse.takeWhile isJsSpace).reverse with hwdef
    set sg := afterSign cs2 with hsgdef
    set intDs := sg.2.takeWhile isDigitChar with hintdef
    set r := sg.2.dropWhile isDigitChar with hrdef
    have hwnd : ∀ x, w.head? = some x → isDigitChar x = false := by
      intro x hx
      cases hw2 : w with
      | nil =>
        rw [hw2] at hx
        exact absurd hx (by simp)
      | cons y t =>
        rw [hw2] at hx
        simp only [List.head?_cons, Option.some.injEq] at hx
        exact hx ▸ space_not_digit y (hwsp y (by rw [hw2]; simp))
    have hidig : ∀ c ∈ intDs, isDigitChar c = true := fun c hc =>
      List.mem_takeWhile_imp hc
    have hsplit2 : intDs ++ r = sg.2 := by
      rw [hintdef, hrdef]
      exact List.takeWhile_append_dropWhile _ _
    by_cases hdot : r.head? = some '.'
    · rw [if_pos hdot] at hp
      by_cases hcond : r.tail.dropWhile isDigitChar = [] ∧
        ¬(intDs = [] ∧ r.tail.takeWhile isDigitChar = [])
      case neg => rw [if_neg hcond] at hp; exact absurd hp (by simp)
      case pos =>
        rw [if_pos hcond] at hp
        injection hp with hp2
        obtain ⟨hq2, hne⟩ := hcond
        set fds := r.tail.takeWhile isDigitChar with hfdef
        have hfdig : ∀ c ∈ fds, isDigitChar c = true := fun c hc =>
          List.mem_takeWhile_imp hc
        have hFlt : digitsToNat fds < 10 ^ fds.length := digitsToNat_lt fds hfdig
        have hrcons : r = '.' :: r.tail := by
          cases hr2 : r with
          | nil =>
            rw [hr2] at hdot
            exact absurd hdot (by simp)
          | cons y t =>
            rw [hr2] at hdot
            simp only [List.head?_cons, Option.some.injEq] at hdot
            rw [← hdot]
            rfl
        -- the value and scale recorded in p
        have hpk : p.2 = fds.length := by rw [← hp2]
        have hpv : p.1 = if sg.1 then
            -((digitsToNat intDs : Int) * 10 ^ fds.length + digitsToNat fds)
          else ((digitsToNat intDs : Int) * 10 ^ fds.length + digitsToNat fds) := by
          rw [← hp2]
        have hv1957 : (1957 : Int) * 10 ^ p.2 ≤ p.1 := by
          rw [← le_decVal_iff, ← hmin]
          exact h1
        have hpow : (0 : Int) < 10 ^ p.2 := by positivity
        have hsgf : sg.1 = false := by
          by_contra hsgt
          rw [Bool.not_eq_false] at hsgt
          rw [hsgt, if_pos rfl] at hpv
          have hnn : (0 : Int) ≤ (digitsToNat intDs : Int) * 10 ^ fds.length +
              digitsToNat fds := by positivity
          nlinarith
        rw [hsgf] at hpv
        simp only [Bool.false_eq_true, if_false] at hpv
        have hine : intDs ≠ [] := by
          intro hie
          rw [hie] at hpv
          rw [show digitsToNat ([] : List Char) = 0 from rfl] at hpv
          simp only [Nat.cast_zero, zero_mul, zero_add] at hpv
          have hF : (digitsToNat fds : Int) < 10 ^ fds.length := by exact_mod_cast hFlt
          rw [hpk, hpv] at hv1957
          nlinarith [pow_pos (show (0 : Int) < 10 by norm_num) fds.length]
        -- the parseInt side
        simp only [parseIntJS]
        have hcs12 : cs1 = cs2 ++ w := hdec
        have hsg2 : afterSign cs1 = (sg.1, sg.2 ++ w) := by
          rw [hcs12]
          exact afterSign_append cs2 w hcs2
        have htw : (sg.2 ++ w).takeWhile isDigitChar = intDs := by
          have hshape : sg.2 ++ w = intDs ++ ('.' :: (r.tail ++ w)) := by
            rw [← hsplit2, hrcons]
            simp
          rw [hshape]
          exact (takeWhile_dropWhile_append isDigitChar intDs ('.' :: (r.tail ++ w))
            hidig (by
              intro x hx
              simp only [List.head?_cons, Option.some.injEq] at hx
              rw [← hx]
              decide)).1
        rw [hsg2]
        simp only [htw, hsgf]
        rw [if_neg hine]
        simp only [Bool.false_eq_true, if_false]
        refine ⟨digitsToNat intDs, rfl, ?_, ?_⟩
        · rw [show ((digitsToNat intDs : Nat) : ℚ) = (((digitsToNat intDs : Int)) : ℚ)
            by push_cast; rfl]
          rw [le_decVal_iff]
          rw [hpv, hpk]
          exact le_add_of_nonneg_right (by positivity)
        · rw [show ((digitsToNat intDs : Nat) : ℚ) + 1 =
            (((digitsToNat intDs + 1 : Int)) : ℚ) by push_cast; ring]
          rw [decVal_lt_iff]
          rw [hpv, hpk]
          have hF : (digitsToNat fds : Int) < 10 ^ fds.length := by exact_mod_cast hFlt
          have hring : ((digitsToNat intDs : Int) + 1) * 10 ^ fds.length =
              (digitsToNat intDs : Int) * 10 ^ fds.length + 10 ^ fds.length := by ring
          rw [hring]
          exact add_lt_add_left hF _
    · rw [if_neg hdot] at hp
      by_cases hcond : r = [] ∧ ¬(intDs = [] ∧ ([] : List Char) = [])
      case neg => rw [if_neg hcond] at hp; exact absurd hp (by simp)
      case pos =>
        rw [if_pos hcond] at hp
        injection hp with hp2
        obtain ⟨hq2, hne⟩ := hcond
        -- here the leftover is empty: all of sg.2 is integer digits
        have hrnil : r = [] := hq2
        have hine : intDs ≠ [] := by
          intro hie
          exact hne ⟨hie, rfl⟩
        have hpk : p.2 = ([] : List Char).length := by rw [← hp2]
        have hpv : p.1 = if sg.1 then
            -((digitsToNat intDs : Int) * 10 ^ ([] : List Char).length +
              digitsToNat ([] : List Char))
          else ((digitsToNat intDs : Int) * 10 ^ ([] : List Char).length +
              digitsToNat ([] : List Char)) := by
          rw [← hp2]
        simp only [List.length_nil, pow_zero, mul_one] at hpv
        have hdz : digitsToNat ([] : List Char) = 0 := rfl
        rw [hdz] at hpv
        simp only [Nat.cast_zero, add_zero] at hpv
        have hv1957 : (1957 : Int) * 10 ^ p.2 ≤ p.1 := by
          rw [← le_decVal_iff, ← hmin]
          exact h1
        have hsgf : sg.1 = false := by
          by_contra hsgt
          rw [Bool.not_eq_false] at hsgt
          rw [hsgt, if_pos rfl] at hpv
          have hpow : (0 : Int) < 10 ^ p.2 := by positivity
          have hnn : (0 : Int) ≤ (digitsToNat intDs : Int) := by positivity
          nlinarith
        rw [hsgf] at hpv
        simp only [Bool.false_eq_true, if_false] at hpv
        simp only [parseIntJS]
        have hcs12 : cs1 = cs2 ++ w := hdec
        have hsg2 : afterSign cs1 = (sg.1, sg.2 ++ w) := by
          rw [hcs12]
          exact afterSign_append cs2 w hcs2
        have htw : (sg.2 ++ w).takeWhile isDigitChar = intDs := by
          have hshape : sg.2 ++ w = intDs ++ w := by
            rw [← hsplit2, hrnil]
            simp
          rw [hshape]
          exact (takeWhile_dropWhile_append isDigitChar intDs w hidig hwnd).1
        rw [hsg2]
        simp only [htw, hsgf]
        rw [if_neg hine]
        simp only [Bool.false_eq_true, if_false]
        refine ⟨digitsToNat intDs, rfl, ?_, ?_⟩
        · rw [show ((digitsToNat intDs : Nat) : ℚ) = (((digitsToNat intDs : Int)) : ℚ)
            by push_cast; rfl]
          rw [le_decVal_iff, hpv, hpk]
          simp
        · rw [show ((digitsToNat intDs : Nat) : ℚ) + 1 =
            (((digitsToNat intDs + 1 : Int)) : ℚ) by push_cast; ring]
          rw [decVal_lt_iff, hpv, hpk]
          simp

theorem not_yearInvalid (y : String) (p : Int × Nat) (hy : toNumberJS y = some p)
    (h1 : MIN_YEAR ≤ decVal p) (h2 : decVal p ≤ MAX_YEAR) : ¬ yearInvalid y := by
  rintro (h0 | hn | ⟨p2, hp2, hr⟩)
  · rw [h0] at hy
    rw [show toNumberJS "" = some ((0 : Int), (0 : Nat)) from rfl] at hy
    injection hy with hy2
    rw [← hy2] at h1
    norm_num [decVal, MIN_YEAR] at h1
  · rw [hn] at hy
    exact Option.noConfusion hy
  · rw [hy] at hp2
    injection hp2 with hp2
    subst hp2
    rcases hr with hr | hr
    · exact absurd hr (not_lt.2 h1)
    · exact absurd hr (not_lt.2 h2)

/-- C4: for every valid input (name and destination non-blank after
trimming, year numeric with value in 1957 to 2100, status one of the three
enumerated values) the create flow appends exactly one record to the end
of the collection, carrying the input field values, the fresh id and the
creation timestamp, with the year stored as the integer truncation of the
numeric value; every pre-existing record is untouched and the length grows
by exactly one. -/
theorem claim_C4_create (st : ManagerState) (freshId : Nat) (now : String)
    (fd : FormData) (p : Int × Nat)
    (hn : jsTrim fd.name ≠ "") (hd : jsTrim fd.destination ≠ "")
    (hy : toNumberJS fd.year = some p)
    (h1 : MIN_YEAR ≤ decVal p) (h2 : decVal p ≤ MAX_YEAR)
    (hs : fd.status = "active" ∨ fd.status = "completed" ∨ fd.status = "planned") :
    ∃ n : Nat,
      (handleSubmit fd freshId now st).1.missions =
        st.missions ++
          [⟨freshId, fd.name, fd.destination, some ((n : Int)), fd.status, now⟩] ∧
      ((n : ℚ)) ≤ decVal p ∧ decVal p < (n : ℚ) + 1 ∧
      (handleSubmit fd freshId now st).1.missions.length =
        st.missions.length + 1 := by
  obtain ⟨n, hpi, hnl, hnu⟩ := toNumber_parseInt_bridge fd.year p hy h1
  have hss : jsTrim fd.status ≠ "" := by
    rcases hs with h | h | h <;> rw [h] <;> decide
  have hyo : validateYear fd.year = (true, "") :=
    validateYear_ok_of_not_invalid _ (not_yearInvalid _ p hy h1 h2)
  have htrue : (validateForm fd).1 = true := by
    rw [validateForm_fst, validateField_ok _ _ hn, validateField_ok _ _ hd,
      validateField_ok _ _ hss, hyo]
    rfl
  have hmiss : (handleSubmit fd freshId now st).1.missions =
      st.missions ++
        [Mission.make freshId now fd.name fd.destination fd.year fd.status] := by
    simp [handleSubmit, htrue, createMission, saveMissions]
  refine ⟨n, ?_, hnl, hnu, ?_⟩
  · rw [hmiss]
    have hmk : Mission.make freshId now fd.name fd.destination fd.year fd.status =
        ⟨freshId, fd.name, fd.destination, some ((n : Int)), fd.status, now⟩ := by
      unfold Mission.make
      rw [hpi]
    rw [hmk]
  · rw [hmiss]
    simp

/-- Witness for C4: the concrete valid input Europa Clipper / Europa /
1999 / planned appended to the empty collection. -/
theorem claim_C4_create_witness :
    (jsTrim "Europa Clipper" ≠ "" ∧ jsTrim "Europa" ≠ "" ∧
      toNumberJS "1999" = some ((1999 : Int), (0 : Nat)) ∧
      MIN_YEAR ≤ decVal ((1999 : Int), (0 : Nat)) ∧
      decVal ((1999 : Int), (0 : Nat)) ≤ MAX_YEAR) ∧
    (∃ n : Nat,
      (handleSubmit ⟨"Europa Clipper", "Europa", "1999", "planned"⟩ 42 "ts"
        ⟨[], none⟩).1.missions =
        (⟨[], none⟩ : ManagerState).missions ++
          [⟨42, "Europa Clipper", "Europa", some ((n : Int)), "planned", "ts"⟩] ∧
      ((n : ℚ)) ≤ decVal ((1999 : Int), (0 : Nat)) ∧
      decVal ((1999 : Int), (0 : Nat)) < (n : ℚ) + 1 ∧
      (handleSubmit ⟨"Europa Clipper", "Europa", "1999", "planned"⟩ 42 "ts"
        ⟨[], none⟩).1.missions.length =
        (⟨[], none⟩ : ManagerState).missions.length + 1) :=
  ⟨⟨by decide, by decide, by decide, by norm_num [decVal, MIN_YEAR],
    by norm_num [decVal, MAX_YEAR]⟩,
   claim_C4_create ⟨[], none⟩ 42 "ts" ⟨"Europa Clipper", "Europa", "1999", "planned"⟩
     ((1999 : Int), (0 : Nat)) (by decide) (by decide) (by decide)
     (by norm_num [decVal, MIN_YEAR]) (by norm_num [decVal, MAX_YEAR])
     (Or.inr (Or.inr rfl))⟩

theorem mem_updateFirst (id : Nat) (f : Mission → Mission) (ms : List Mission)
    (m : Mission) (hm : m ∈ updateFirst id f ms) :
    m ∈ ms ∨ ∃ x ∈ ms, m = f x := by
  induction ms with
  | nil =>
    rw [show updateFirst id f [] = [] from rfl] at hm
    exact absurd hm (by simp)
  | cons x xs ih =>
    rw [updateFirst] at hm
    by_cases hx : x.id = id
    · rw [if_pos hx] at hm
      rcases List.mem_cons.1 hm with h | h
      · exact Or.inr ⟨x, by simp, h⟩
      · exact Or.inl (List.mem_cons.2 (Or.inr h))
    · rw [if_neg hx] at hm
      rcases List.mem_cons.1 hm with h | h
      · exact Or.inl (by simp [h])
      · rcases ih h with h2 | ⟨x2, hx2, hfx⟩
        · exact Or.inl (List.mem_cons.2 (Or.inr h2))
        · exact Or.inr ⟨x2, by simp [hx2], hfx⟩

/-- C9: a year input whose numeric value lies in the valid range passes
validation even when it is not an integer, and what reaches storage is the
parseInt image, the integer truncation of that value: a record created by
the submit flow carries exactly that integer year, and any record the edit
flow touches carries it too. -/
theorem claim_C9_truncation (st : ManagerState) (freshId eid : Nat) (now : String)
    (fd : FormData) (p : Int × Nat)
    (hy : toNumberJS fd.year = some p)
    (h1 : MIN_YEAR ≤ decVal p) (h2 : decVal p ≤ MAX_YEAR) :
    (validateYear fd.year).1 = true ∧
    ∃ n : Nat, parseIntJS fd.year = some ((n : Int)) ∧
      ((n : ℚ)) ≤ decVal p ∧ decVal p < (n : ℚ) + 1 ∧
      (∀ m ∈ (handleSubmit fd freshId now st).1.missions,
        m ∈ st.missions ∨ m.year = some ((n : Int))) ∧
      (∀ m ∈ (handleEditSubmit eid fd st).1.missions,
        m ∈ st.missions ∨ m.year = some ((n : Int))) := by
  obtain ⟨n, hpi, hnl, hnu⟩ := toNumber_parseInt_bridge fd.year p hy h1
  have hyo : validateYear fd.year = (true, "") :=
    validateYear_ok_of_not_invalid _ (not_yearInvalid _ p hy h1 h2)
  refine ⟨by rw [hyo], n, hpi, hnl, hnu, ?_, ?_⟩
  · intro m hm
    by_cases hv : (validateForm fd).1
    · rw [show (handleSubmit fd freshId now st).1 = createMission freshId now
        fd.name fd.destination fd.year fd.status st from by simp [handleSubmit, hv]] at hm
      rcases List.mem_append.1 hm with h | h
      · exact Or.inl h
      · right
        rw [List.mem_singleton.1 h]
        show parseIntJS fd.year = _
        rw [hpi]
    · rw [show (handleSubmit fd freshId now st).1 = st
        from by simp [handleSubmit, hv]] at hm
      exact Or.inl hm
  · intro m hm
    by_cases hv : (validateForm fd).1
    · rw [show (handleEditSubmit eid fd st).1 = updateMission eid fd.name
        fd.destination fd.year fd.status st from by simp [handleEditSubmit, hv]] at hm
      unfold updateMission at hm
      by_cases hf : (st.missions.find? fun x => x.id == eid).isSome
      · rw [if_pos hf] at hm
        have hm2 : m ∈ updateFirst eid
            (editFields fd.name fd.destination fd.year fd.status) st.missions := hm
        rcases mem_updateFirst _ _ _ _ hm2 with h | ⟨x, hx, hfx⟩
        · exact Or.inl h
        · right
          rw [hfx]
          show parseIntJS fd.year = _
          rw [hpi]
      · rw [if_neg hf] at hm
        exact Or.inl hm
    · rw [show (handleEditSubmit eid fd st).1 = st
        from by simp [handleEditSubmit, hv]] at hm
      exact Or.inl hm

/-- Witness for C9: the non-integer in-range year input 2000.9 passes
validation and is stored truncated. -/
theorem claim_C9_truncation_witness :
    (toNumberJS "2000.9" = some ((20009 : Int), (1 : Nat)) ∧
      MIN_YEAR ≤ decVal ((20009 : Int), (1 : Nat)) ∧
      decVal ((20009 : Int), (1 : Nat)) ≤ MAX_YEAR) ∧
    ((validateYear "2000.9").1 = true ∧
    ∃ n : Nat, parseIntJS "2000.9" = some ((n : Int)) ∧
      ((n : ℚ)) ≤ decVal ((20009 : Int), (1 : Nat)) ∧
      decVal ((20009 : Int), (1 : Nat)) < (n : ℚ) + 1 ∧
      (∀ m ∈ (handleSubmit ⟨"Juno", "Jupiter", "2000.9", "active"⟩ 5 "ts"
          ⟨[], none⟩).1.missions,
        m ∈ (⟨[], none⟩ : ManagerState).missions ∨ m.year = some ((n : Int))) ∧
      (∀ m ∈ (handleEditSubmit 5 ⟨"Juno", "Jupiter", "2000.9", "active"⟩
          ⟨[], none⟩).1.missions,
        m ∈ (⟨[], none⟩ : ManagerState).missions ∨ m.year = some ((n : Int)))) :=
  ⟨⟨by decide, by norm_num [decVal, MIN_YEAR], by norm_num [decVal, MAX_YEAR]⟩,
   claim_C9_truncation ⟨[], none⟩ 5 5 "ts" ⟨"Juno", "Jupiter", "2000.9", "active"⟩
     ((20009 : Int), (1 : Nat)) (by decide) (by norm_num [decVal, MIN_YEAR])
     (by norm_num [decVal, MAX_YEAR])⟩

/-- C10: when the name or destination input carries whitespace around
non-blank content (any value whose trim is non-empty), validation passes
on the raw value and both the created and the updated record store the raw
untrimmed strings: trimming happens only inside the validity check, never
on the persisted value. -/
theorem claim_C10_raw_strings (st : ManagerState) (freshId eid : Nat) (now : String)
    (fd : FormData)
    (hn : jsTrim fd.name ≠ "") (hd : jsTrim fd.destination ≠ "")
    (hyv : validateYear fd.year = (true, "")) (hs : jsTrim fd.status ≠ "") :
    (validateForm fd).1 = true ∧
    (handleSubmit fd freshId now st).1.missions =
      st.missions ++
        [⟨freshId, fd.name, fd.destination, parseIntJS fd.year, fd.status, now⟩] ∧
    (∀ pre m post, st.missions = pre ++ m :: post → (∀ x ∈ pre, x.id ≠ eid) →
      m.id = eid →
      (handleEditSubmit eid fd st).1.missions =
        pre ++
          { m with
            name := fd.name, destination := fd.destination,
            year := parseIntJS fd.year, status := fd.status } :: post) := by
  have htrue : (validateForm fd).1 = true := by
    rw [validateForm_fst, validateField_ok _ _ hn, validateField_ok _ _ hd,
      validateField_ok _ _ hs, hyv]
    rfl
  refine ⟨htrue, ?_, ?_⟩
  · simp [handleSubmit, htrue, createMission, saveMissions, Mission.make]
  · intro pre m post hsplit hpre hmid
    rw [show (handleEditSubmit eid fd st).1 = updateMission eid fd.name
      fd.destination fd.year fd.status st from by simp [handleEditSubmit, htrue]]
    unfold updateMission
    have hfs : (st.missions.find? fun x => x.id == eid).isSome := by
      apply find_isSome_of_mem st.missions eid m _ hmid
      rw [hsplit]
      simp
    rw [if_pos hfs]
    show updateFirst eid (editFields fd.name fd.destination fd.year fd.status)
      st.missions = _
    rw [hsplit, updateFirst_append eid _ pre m post hpre hmid]
    rfl

/-- Witness for C10: whitespace-padded name and destination are stored raw
by the create flow. -/
theorem claim_C10_raw_strings_witness :
    (jsTrim "  Apollo 11  " ≠ "" ∧ jsTrim " Luna " ≠ "" ∧
      validateYear "1969" = (true, "") ∧ jsTrim "active" ≠ "") ∧
    ((validateForm ⟨"  Apollo 11  ", " Luna ", "1969", "active"⟩).1 = true ∧
    (handleSubmit ⟨"  Apollo 11  ", " Luna ", "1969", "active"⟩ 8 "ts"
        ⟨[], none⟩).1.missions =
      (⟨[], none⟩ : ManagerState).missions ++
        [⟨8, "  Apollo 11  ", " Luna ", parseIntJS "1969", "active", "ts"⟩] ∧
    (∀ pre m post,
      (⟨[], none⟩ : ManagerState).missions = pre ++ m :: post →
      (∀ x ∈ pre, x.id ≠ 9) → m.id = 9 →
      (handleEditSubmit 9 ⟨"  Apollo 11  ", " Luna ", "1969", "active"⟩
          ⟨[], none⟩).1.missions =
        pre ++
          { m with
            name := "  Apollo 11  ", destination := " Luna ",
            year := parseIntJS "1969", status := "active" } :: post)) :=
  ⟨⟨by decide, by decide, by decide, by decide⟩,
   claim_C10_raw_strings ⟨[], none⟩ 8 9 "ts"
     ⟨"  Apollo 11  ", " Luna ", "1969", "active"⟩
     (by decide) (by decide) (by decide) (by decide)⟩

/-- C7: each animation cycle the progress width becomes the clamped
percentage min(scrollY / (documentHeight - windowHeight) * 100, 100), and
the step is a no-op when the indicator element is absent; at document
height 3000 and viewport height 1000, scroll 2000 gives the clamped 100
and scroll 1000 gives 50. -/
theorem claim_C7_progress (d wh sy cur : ℚ) :
    updateProgress true d wh sy cur = min (sy / (d - wh) * 100) 100 ∧
    updateProgress false d wh sy cur = cur ∧
    updateProgress true 3000 1000 2000 cur = 100 ∧
    updateProgress true 3000 1000 1000 cur = 50 := by
  refine ⟨rfl, rfl, ?_, ?_⟩
  · show min ((2000 : ℚ) / (3000 - 1000) * 100) 100 = 100
    norm_num
  · show min ((1000 : ℚ) / (3000 - 1000) * 100) 100 = 50
    norm_num

/-- C8: the smoothing step moves each axis a tenth of the way toward its
target, so with a constant target of (0,0) the smoothed offset after n
cycles is (9/10) to the n times its initial value on each axis; at the
converged point (0,0) with scroll offset 0 every planet transform reduces
to rotation 0 and translation (0, distance times 30). -/
theorem claim_C8_smoothing (s : MouseState) (n index : Nat) (dist : ℚ)
    (hx : s.targetMouseX = 0) (hy : s.targetMouseY = 0) :
    (updateMouse^[n] s).mouseX = (9 / 10) ^ n * s.mouseX ∧
    (updateMouse^[n] s).mouseY = (9 / 10) ^ n * s.mouseY ∧
    planetTransform 0 0 0 index dist =
      { translateX := 0, translateY := dist * 30, rotation := 0 } := by
  have key : ∀ k : Nat, ∀ t : MouseState, t.targetMouseX = 0 → t.targetMouseY = 0 →
      (updateMouse^[k] t).mouseX = (9 / 10) ^ k * t.mouseX ∧
      (updateMouse^[k] t).mouseY = (9 / 10) ^ k * t.mouseY := by
    intro k
    induction k with
    | zero =>
      intro t _ _
      simp
    | succ k ih =>
      intro t htx hty
      rw [Function.iterate_succ_apply]
      obtain ⟨h2x, h2y⟩ := ih (updateMouse t)
        (by rw [show (updateMouse t).targetMouseX = t.targetMouseX from rfl, htx])
        (by rw [show (updateMouse t).targetMouseY = t.targetMouseY from rfl, hty])
      constructor
      · rw [h2x]
        show (9 / 10 : ℚ) ^ k * (t.mouseX + (t.targetMouseX - t.mouseX) * (1 / 10)) = _
        rw [htx]
        ring
      · rw [h2y]
        show (9 / 10 : ℚ) ^ k * (t.mouseY + (t.targetMouseY - t.mouseY) * (1 / 10)) = _
        rw [hty]
        ring
  obtain ⟨hkx, hky⟩ := key n s hx hy
  refine ⟨hkx, hky, ?_⟩
  unfold planetTransform
  simp

/-- Witness for C8: three smoothing cycles from offset (1, 2) with target
(0, 0), and the transform of planet index 2 at distance 5. -/
theorem claim_C8_smoothing_witness :
    ((⟨1, 2, 0, 0⟩ : MouseState).targetMouseX = 0 ∧
      (⟨1, 2, 0, 0⟩ : MouseState).targetMouseY = 0) ∧
    ((updateMouse^[3] ⟨1, 2, 0, 0⟩).mouseX =
        (9 / 10) ^ 3 * (⟨1, 2, 0, 0⟩ : MouseState).mouseX ∧
      (updateMouse^[3] ⟨1, 2, 0, 0⟩).mouseY =
        (9 / 10) ^ 3 * (⟨1, 2, 0, 0⟩ : MouseState).mouseY ∧
      planetTransform 0 0 0 2 5 =
        { translateX := 0, translateY := 5 * 30, rotation := 0 }) :=
  ⟨⟨rfl, rfl⟩, claim_C8_smoothing ⟨1, 2, 0, 0⟩ 3 2 5 rfl rfl⟩

end ProjectS
